import Mathlib

/-!
# Verification of the immcache disk cache engine

Shallow embedding of the immcache repository (Go): an immutable, content-verified,
disk-backed key/value cache.  The embedded functions below are translated from the
current revision of the disk cache source (`DiskCache`, `diskTee`, `diskFile`,
`LRU`) and from the lifecycle/eviction logic.  Bytes are modelled as `Nat` lists,
Go `int64` as `Int` (no arithmetic here approaches 2^63, so overflow is not
reachable in any statement below), Go errors as an inductive error type wrapped in
`Option` (`none` = nil), and the filesystem effects relevant to the claims
(canonical content files, temporary-file removal) as explicit state.  Ambient OS
failures of `os.MkdirAll`, `File.Close` on a fresh handle and `os.Rename` inside
`DiskCache.rename` are modelled as succeeding; the `O_EXCL` already-exists branch,
which the claims are about, is modelled exactly.  `float64` arithmetic in the
eviction decision is modelled over `ℚ`; every comparison appearing in a theorem is
far from the float rounding error.
-/

/-- Go errors: `nil` is `Option.none`, a non-nil error is `some` of this type.
`exist` stands for an error satisfying `os.IsExist`, `notExist` for one satisfying
`os.IsNotExist`, `io n` for any other distinct I/O error. -/
inductive GoErr
  | corruptedCache
  | sizeNotMatch
  | shortWrite
  | exist
  | notExist
  | io (n : Nat)
  deriving DecidableEq

/-- `os.IsExist` on a non-nil error. -/
def GoErr.isAlreadyExist : GoErr → Bool
  | .exist => true
  | _ => false

/-- Byte strings (each element is a byte value). -/
abbrev Bytes := List Nat

/-- `diskEntry`: the value stored in the index for a key (digest + declared size). -/
structure DiskEntry where
  sum : Bytes
  size : Int
  deriving DecidableEq

/-! ## Recency index (reference implementation: `LRU`, src/index_lru.go)

The Go `LRU` is a doubly-linked list (front = most recently used) plus a map from
key to list element.  Since the map contents are determined by the list, the pair
is embedded as an association list with the head as the most-recently-used end. -/

/-- Lookup of `k` in the association-list model of the LRU (the Go map access
`c.m[key]`, which yields the element holding the stored value). -/
def lruLookup {α : Type} (c : List (String × α)) (k : String) : Option α :=
  match c with
  | [] => none
  | (k', v) :: t => if k' = k then some v else lruLookup t k

/-- Removing the element of key `k` from the list (the effect on element order of
`MoveToFront`: the element is unlinked; all other elements keep their order). -/
def lruErase {α : Type} (c : List (String × α)) (k : String) : List (String × α) :=
  c.filter (fun p => p.1 ≠ k)

/-- `LRU.Set` (src/index_lru.go): if the key is present, the existing element is
moved to the front — its stored value is left as it was; otherwise a new element
with the provided value is pushed at the front. -/
def lruSet {α : Type} (c : List (String × α)) (k : String) (v : α) : List (String × α) :=
  match lruLookup c k with
  | some w => (k, w) :: lruErase c k
  | none => (k, v) :: c

/-- `LRU.Get` (src/index_lru.go): on a hit the element is moved to the front and
its value returned; on a miss the list is unchanged. -/
def lruGet {α : Type} (c : List (String × α)) (k : String) : Option α × List (String × α) :=
  match lruLookup c k with
  | some w => (some w, (k, w) :: lruErase c k)
  | none => (none, c)

/-- `LRU.RemoveUnused` (src/index_lru.go): pops the back (least-recently-used)
element, returning its key and value; on an empty cache returns nothing. -/
def lruRemoveUnused {α : Type} (c : List (String × α)) :
    Option (String × α) × List (String × α) :=
  match c.getLast? with
  | some e => (some e, c.dropLast)
  | none => (none, c)

/-! ## Content-store paths (`DiskCache.getFilename`) -/

/-- One hexadecimal digit character, lower case (as Go `encoding/hex`). -/
def hexDigit (n : Nat) : Char :=
  if n < 10 then Char.ofNat (48 + n) else Char.ofNat (87 + n)

/-- `hex.EncodeToString`: two lower-case hex characters per byte, high nibble
first. -/
def hexEncodeToString : Bytes → List Char
  | [] => []
  | b :: t => hexDigit (b / 16) :: hexDigit (b % 16) :: hexEncodeToString t

/-- Go string slicing `s[a:b]` (for `a ≤ b ≤ s.length`). -/
def goSlice (s : List Char) (a b : Nat) : List Char :=
  (s.take b).drop a

/-- `DiskCache.getFilename`: `filepath.Join(c.basePath, key[:2], key[2:32])` where
`key = hex.EncodeToString(sum)`.  `filepath.Join` on clean, non-empty components
is concatenation with the separator. -/
def getFilename (basePath : List Char) (sum : Bytes) : List Char :=
  let key := hexEncodeToString sum
  basePath ++ ('/' :: goSlice key 0 2) ++ ('/' :: goSlice key 2 32)

/-! ## Keyed digests (`DiskCache.init` secret handling and `DiskCache.hash`) -/

/-- The digest algorithm selected by `DiskCache.hash`: either plain SHA-256 or
HMAC-SHA256 under a secret key.  The hash computation itself is abstract; the
claims are about which algorithm and key are installed. -/
inductive HashAlgo
  | sha256
  | hmacSHA256 (secret : Bytes)
  deriving DecidableEq

/-- The secret installed by `DiskCache.init`: a copy of the caller-supplied
secret when it is non-empty (`if l := len(c.opts.Secret); l > 0`), otherwise the
`secret` field stays nil.  (This revision generates no random secret.) -/
def initSecret (optsSecret : Bytes) : Option Bytes :=
  if optsSecret.length > 0 then some optsSecret else none

/-- `DiskCache.hash`: HMAC-SHA256 under the secret when one is set, otherwise
plain SHA-256. -/
def cacheHash (secret : Option Bytes) : HashAlgo :=
  match secret with
  | some s => .hmacSHA256 s
  | none => .sha256

/-- The digest accumulator handed to the write-path tee by `getOrLoad`
(`h: c.hash()` in the `diskTee` literal). -/
def teeHashAlgo (secret : Option Bytes) : HashAlgo := cacheHash secret

/-- The digest accumulator handed to the read-path verifier by
`DiskCache.openFile` (`h: c.hash()` in the `diskFile` literal). -/
def openFileHashAlgo (secret : Option Bytes) : HashAlgo := cacheHash secret

/-! ## Read-path verifier (`diskFile.Close`) -/

/-- `hmac.Equal` (constant-time comparison): equal lengths and equal bytes. -/
def hmacEqual (a b : Bytes) : Bool :=
  (a.length == b.length) && ((List.zip a b).all fun p => p.1 == p.2)

/-- `diskFile.Close`: first the `os.File` is closed (its error, when non-nil, is
returned before any comparison); then the accumulated digest is compared with the
entry's recorded digest — on mismatch the backing file is removed and
`errCorruptedCache` returned.  Result: (returned error, whether the backing file
was removed). -/
def diskFileClose (fCloseErr : Option GoErr) (computed recorded : Bytes) :
    Option GoErr × Bool :=
  match fCloseErr with
  | some e => (some e, false)
  | none =>
    if hmacEqual computed recorded then (none, false)
    else (some .corruptedCache, true)

/-! ## Write path: publish (`DiskCache.rename`, `DiskCache.addFileLocked`) and
tee finalize (`diskTee.Close`) -/

/-- The cache state guarded by `c.mu`, together with the set of canonical content
files present on disk (`store` holds the digests whose canonical path exists). -/
structure CacheSt where
  index : List (String × DiskEntry)
  size : Int
  sizeMax : Int
  calls : List String
  store : List Bytes
  deriving DecidableEq

/-- `DiskCache.rename`: the parent directory is ensured, then the canonical path
is claimed with `O_CREATE|O_EXCL`.  If the canonical file already exists the
`O_EXCL` open fails with an `os.IsExist` error which is returned — the rename is
skipped.  Otherwise the claim succeeds and the temporary file is renamed into
place (the canonical file now exists).  Returns (new store, error). -/
def diskCacheRename (store : List Bytes) (sum : Bytes) : List Bytes × Option GoErr :=
  if sum ∈ store then (store, some .exist)
  else (sum :: store, none)

/-- `DiskCache.addFileLocked(err, tmppath, key, size, sum)`: under `c.mu`, when
the incoming error is nil, attempts the rename; the index entry is set when the
rename succeeded or failed with `os.IsExist`; the size counter grows only on a
clean rename.  In every case the in-flight record for the key is removed.  After
unlocking, an eviction signal carrying the new total is dispatched
(non-blocking; a full channel drops it — the signal is reported here as an
`Option Int`, its possible loss happens at the channel).  Returns
(new state, returned error, eviction signal). -/
def addFileLocked (c : CacheSt) (err0 : Option GoErr) (key : String) (size : Int)
    (sum : Bytes) : CacheSt × Option GoErr × Option Int :=
  match err0 with
  | some e =>
    ({ c with calls := c.calls.filter (fun k => k ≠ key) }, some e, none)
  | none =>
    let r := diskCacheRename c.store sum
    let index' :=
      if r.2 = none ∨ r.2 = some .exist then lruSet c.index key ⟨sum, size⟩
      else c.index
    let size' := if r.2 = none then c.size + size else c.size
    let totalSize := if r.2 = none then size' else 0
    let sig := if c.sizeMax > 0 ∧ totalSize > c.sizeMax then some totalSize else none
    ({ c with
        index := index'
        size := size'
        store := r.1
        calls := c.calls.filter (fun k => k ≠ key) },
      r.2, sig)

/-- The state of a `diskTee` at the moment `Close` is called: the error the
source stream's own `Close` will return, whether the buffered writer was ever
created (a first `Read` creates it), the errors of `bfr.Flush` and of closing the
temporary file, the sticky write error `t.e` (write failure or short write
recorded during streaming), the byte count `t.n` actually teed, the size the
loader declared, the finalized digest `t.h.Sum(nil)`, and the key. -/
structure TeeSt where
  srcCloseErr : Option GoErr
  bfrCreated : Bool
  flushErr : Option GoErr
  tmpCloseErr : Option GoErr
  writeErr : Option GoErr
  nWritten : Int
  declSize : Int
  digest : Bytes
  key : String

/-- The finalize error `errw` computed by `diskTee.Close` before calling
`addFileLocked`: flush error, else temp-close error, else the sticky write
error, else `errSizeNotMatch` when the observed byte count differs from the
declared size. -/
def teeFinalizeErr (t : TeeSt) : Option GoErr :=
  let errw := if t.bfrCreated then t.flushErr else none
  let errw := if errw = none then t.tmpCloseErr else errw
  let errw := if errw = none then t.writeErr else errw
  if errw = none ∧ t.nWritten ≠ t.declSize then some .sizeNotMatch else errw

/-- The observable outcome of `diskTee.Close`. -/
structure TeeCloseRes where
  cache : CacheSt
  result : Option GoErr
  outcome : Option GoErr
  tmpRemoved : Bool
  deriving DecidableEq

/-- `diskTee.Close`: the source stream is closed first (`errc`); the finalize
error is computed and threaded through `addFileLocked`; a non-nil result of
`addFileLocked` causes removal of the temporary file; the in-flight call record,
when present, receives that result as its outcome (`t.call.er`) and its waiters
are released; the value returned to the caller is `errc`. -/
def diskTeeClose (t : TeeSt) (c : CacheSt) : TeeCloseRes :=
  let errw := teeFinalizeErr t
  let r := addFileLocked c errw t.key t.declSize t.digest
  { cache := r.1
    result := t.srcCloseErr
    outcome := r.2.1
    tmpRemoved := r.2.1.isSome }

/-! ## Fresh load admission (`DiskCache.getOrLoad`, cache-miss tail) -/

/-- What the cache-miss tail of `getOrLoad` hands back to the caller. -/
inductive FreshRes
  | failed (e : GoErr)
  | plain
  | teeStream
  deriving DecidableEq

/-- The fresh-load tail of `DiskCache.getOrLoad`: the loader is invoked; a loader
error is propagated; a negative declared size returns the loader's stream as is;
when a disk budget is configured and `size/10 > c.sizeMax` (Go `int64` division
truncates toward zero) the loader's stream is returned as is and nothing is
cached; a failure to create the temporary file also returns the stream as is;
otherwise a `diskTee` wrapping the stream is returned.  `plain` means the
loader's stream is returned unmodified — no tee is created, so no publish and no
index insertion can ever happen for this call. -/
def getOrLoadFresh (sizeMax : Int) (loadSize : Int) (loadErr : Option GoErr)
    (tmpCreateErr : Option GoErr) : FreshRes :=
  match loadErr with
  | some e => .failed e
  | none =>
    if loadSize < 0 then .plain
    else if sizeMax > 0 ∧ loadSize.tdiv 10 > sizeMax then .plain
    else
      match tmpCreateErr with
      | some _ => .plain
      | none => .teeStream

/-! ## Eviction scheduler decision (`DiskCache.evictRoutine`) -/

/-- The effective minimum eviction period: the configured duration, or 30 seconds
(in nanoseconds, as Go `time.Duration`) when the option is zero. -/
def effectivePeriod (optPeriod : Int) : Int :=
  if optPeriod = 0 then 30 * 1000000000 else optPeriod

/-- The effective emergency ratio: the configured value, or 1.5 when the
configured value is below 1.0. -/
def effectiveEmergency (optEmergency : ℚ) : ℚ :=
  if optEmergency < 1 then 3 / 2 else optEmergency

/-- The per-wake-up decision of `evictRoutine`:
`time.Until(c.evictLast) >= evictionPeriodMin ||
 float64(size)/float64(c.sizeMax) >= evictionEmergencyRatio`.
`time.Until(t)` is `t.Sub(time.Now())`, i.e. `evictLast - now` — not the time
elapsed since `evictLast`.  Instants are nanosecond counts. -/
def evictRunDecision (optPeriod : Int) (optEmergency : ℚ) (sizeMax : Int)
    (now evictLast size : Int) : Bool :=
  decide (evictLast - now ≥ effectivePeriod optPeriod) ||
    decide ((size : ℚ) / (sizeMax : ℚ) ≥ effectiveEmergency optEmergency)

/-! ## Lifecycle (`DiskCache.init`, `DiskCache.PurgeAndClose`,
`DiskCache.GetOrLoad` dispatch) -/

/-- The `state` field of `DiskCache`: 0 = non-initialized, 1 = initialized,
2 = closed. -/
inductive LState
  | uninit
  | inited
  | closed
  deriving DecidableEq

/-- The numeric encoding the source uses for the lifecycle state. -/
def LState.toNat : LState → Nat
  | .uninit => 0
  | .inited => 1
  | .closed => 2

/-- The lifecycle-relevant portion of a `DiskCache`. -/
structure LCCache where
  state : LState
  sizeMaxPos : Bool
  hasBasePath : Bool
  hasIndex : Bool
  hasEvict : Bool
  deriving DecidableEq

/-- `DiskCache.init` (under `c.mu`): a no-op returning whether the cache is
usable when the state is already advanced; otherwise the base directory is
provisioned (`mkdirFails` models the OS outcome) — on failure the state jumps
straight to closed and `false` is returned; on success the eviction routine is
started when a positive budget is configured and the state becomes initialized. -/
def lcInit (c : LCCache) (mkdirFails : Bool) : LCCache × Bool :=
  match c.state with
  | .inited => (c, true)
  | .closed => (c, false)
  | .uninit =>
    if mkdirFails then ({ c with state := .closed }, false)
    else
      ({ c with state := .inited, hasBasePath := true, hasEvict := c.sizeMaxPos }, true)

/-- `DiskCache.PurgeAndClose` (under `c.mu`): on an already-closed cache, returns
nil immediately with no effect; on an initialized cache, drops the index, removes
the base directory tree and stops the eviction routine; in every non-closed case
the state becomes closed and nil is returned. -/
def purgeAndClose (c : LCCache) : LCCache × Option GoErr :=
  match c.state with
  | .closed => (c, none)
  | .inited =>
    ({ { c with state := .closed, hasIndex := false } with
        hasBasePath := false, hasEvict := false }, none)
  | .uninit => ({ c with state := .closed }, none)

/-- The result of the `GetOrLoad` entry dispatch: either the call proceeds into
the caching path `c.getOrLoad`, or the loader is invoked directly and its stream
and error are returned verbatim (the stream is identified by an abstract tag). -/
inductive GOLRes
  | cachedPath
  | passthrough (loaderStream : Int) (loaderErr : Option GoErr)
  deriving DecidableEq

/-- `DiskCache.GetOrLoad`: when the state is initialized — or a lazy `init`
succeeds — the call proceeds into the caching path; otherwise the loader is
invoked directly and its result returned unmodified. -/
def getOrLoadDispatch (c : LCCache) (mkdirFails : Bool) (loaderStream : Int)
    (loaderErr : Option GoErr) : LCCache × GOLRes :=
  if c.state = .inited then (c, .cachedPath)
  else
    let r := lcInit c mkdirFails
    if r.2 then (r.1, .cachedPath)
    else (r.1, .passthrough loaderStream loaderErr)

/-! ## Single-flight coalescing (`DiskCache.getOrLoad` registration block,
`loadCall`)

The registration block of `getOrLoad` runs under `c.mu`: on a cache miss, the
caller either finds an in-flight `loadCall` for its key in `c.calls` and joins it
as a waiter, or registers a fresh `loadCall` and becomes the leader — the only
caller that proceeds to invoke the loader for a fresh load.  The leader's record
is deleted from `c.calls` exactly when its outcome is recorded (the error path of
`getOrLoad`, or `addFileLocked` during the tee close), at which point the
waiters are released; a waiter whose leader failed, or for whom the entry is
still absent, then invokes the loader directly.  Each lock-protected block is one
atomic step of the transition system below; callers are numbered, `keyOf i` is
the key caller `i` asked for. -/

/-- The phase a single caller of `getOrLoad` is in. -/
inductive SFPhase
  | idle
  | leading
  | waiting (leader : Nat)
  | fallback (leader : Nat)
  | done
  deriving DecidableEq

/-- Global single-flight state: each caller's phase, and for each key the
in-flight record (`c.calls[key]`), identified by the caller that registered it. -/
structure SFState where
  phase : Nat → SFPhase
  owner : String → Option Nat

/-- All callers about to call `getOrLoad`, empty in-flight map. -/
def sfInit : SFState :=
  { phase := fun _ => .idle, owner := fun _ => none }

/-- One atomic (lock-protected) step of the coalescing protocol. -/
inductive SFStep (keyOf : Nat → String) : SFState → SFState → Prop
  | register (s : SFState) (i : Nat) :
      s.phase i = .idle → s.owner (keyOf i) = none →
      SFStep keyOf s
        { phase := fun j => if j = i then .leading else s.phase j,
          owner := fun k => if k = keyOf i then some i else s.owner k }
  | join (s : SFState) (i j : Nat) :
      s.phase i = .idle → s.owner (keyOf i) = some j →
      SFStep keyOf s
        { phase := fun j' => if j' = i then .waiting j else s.phase j',
          owner := s.owner }
  | finish (s : SFState) (i : Nat) :
      s.phase i = .leading →
      SFStep keyOf s
        { phase := fun j => if j = i then .done else s.phase j,
          owner := fun k => if k = keyOf i then none else s.owner k }
  | wakeFallback (s : SFState) (i j : Nat) :
      s.phase i = .waiting j → s.phase j = .done →
      SFStep keyOf s
        { phase := fun j' => if j' = i then .fallback j else s.phase j',
          owner := s.owner }
  | wakeHit (s : SFState) (i j : Nat) :
      s.phase i = .waiting j → s.phase j = .done →
      SFStep keyOf s
        { phase := fun j' => if j' = i then .done else s.phase j',
          owner := s.owner }

/-- The states reachable from the initial state by protocol steps. -/
def SFReachable (keyOf : Nat → String) (s : SFState) : Prop :=
  Relation.ReflTransGen (SFStep keyOf) sfInit s

/-- The inductive invariant of the coalescing protocol: a leader owns its key's
in-flight record, an owned record's owner is a leader on that key, a waiter's
leader is still leading or already done, and a fallback caller's leader is done. -/
def SFInv (keyOf : Nat → String) (s : SFState) : Prop :=
  (∀ i, s.phase i = .leading → s.owner (keyOf i) = some i) ∧
  (∀ k i, s.owner k = some i → s.phase i = .leading ∧ keyOf i = k) ∧
  (∀ i j, s.phase i = .waiting j → s.phase j = .leading ∨ s.phase j = .done) ∧
  (∀ i j, s.phase i = .fallback j → s.phase j = .done)

/-! ## Concrete demonstration states

These mirror the repository's own test scenarios: a load declaring size 16 whose
stream actually yields 4 bytes (`keyfailure` with a bad length in the test), a
short write during streaming, and a second key publishing content whose digest is
already present. -/

/-- A tee whose stream delivered 4 bytes although the loader declared 16, and
whose source stream closes cleanly (the test's `keyfailure` bad-length load). -/
def teeSizeMismatchDemo : TeeSt :=
  { srcCloseErr := none, bfrCreated := true, flushErr := none, tmpCloseErr := none,
    writeErr := none, nWritten := 4, declSize := 16, digest := [7, 7], key := "keyfailure" }

/-- A tee that recorded a short write while streaming. -/
def teeShortWriteDemo : TeeSt :=
  { srcCloseErr := none, bfrCreated := true, flushErr := none, tmpCloseErr := none,
    writeErr := some .shortWrite, nWritten := 2, declSize := 4, digest := [9], key := "key" }

/-- A cache with one in-flight record and an empty index. -/
def cacheDemo : CacheSt :=
  { index := [], size := 0, sizeMax := 0, calls := ["keyfailure"], store := [] }

/-- A finished tee for key `key2` whose content digest `[17]` was already
published for `key1`. -/
def teeDupDemo : TeeSt :=
  { srcCloseErr := none, bfrCreated := true, flushErr := none, tmpCloseErr := none,
    writeErr := none, nWritten := 4, declSize := 4, digest := [17], key := "key2" }

/-- The cache already holding the digest `[17]` published under `key1`. -/
def cacheDupDemo : CacheSt :=
  { index := [("key1", ⟨[17], 4⟩)], size := 4, sizeMax := 0, calls := ["key2"],
    store := [[17]] }

/-- All demo callers request the same key. -/
def sfKeyDemo : Nat → String := fun _ => "k"

/-- The single-flight state after caller 0 registered as leader for `"k"`. -/
def sfDemo1 : SFState :=
  { phase := fun j => if j = 0 then .leading else sfInit.phase j,
    owner := fun k => if k = sfKeyDemo 0 then some 0 else sfInit.owner k }

/-- The single-flight state after caller 1 additionally joined caller 0's
in-flight load as a waiter. -/
def sfDemo2 : SFState :=
  { phase := fun j' => if j' = 1 then .waiting 0 else sfDemo1.phase j',
    owner := sfDemo1.owner }

/-- A 32-byte digest (the length SHA-256 and HMAC-SHA256 produce). -/
def sumDemo : Bytes := List.replicate 32 0

/-- A one-character base directory. -/
def baseDemo : List Char := ['b']

/-! ## Helper lemmas -/

/-- `hmac.Equal` agrees with propositional equality of byte strings. -/
theorem hmacEqual_iff (a b : Bytes) : hmacEqual a b = true ↔ a = b := by
  induction a generalizing b with
  | nil =>
    cases b with
    | nil => simp [hmacEqual]
    | cons y u => simp [hmacEqual]
  | cons x t ih =>
    cases b with
    | nil => simp [hmacEqual]
    | cons y u =>
      have h := ih u
      simp only [hmacEqual, List.length_cons, List.zip_cons_cons, List.all_cons,
        Bool.and_eq_true, beq_iff_eq, Nat.succ_inj, List.cons.injEq] at h ⊢
      constructor
      · rintro ⟨hl, hx, hrest⟩
        exact ⟨hx, h.mp ⟨hl, hrest⟩⟩
      · rintro ⟨hx, ht⟩
        rcases h.mpr ht with ⟨hl, hrest⟩
        exact ⟨hl, hx, hrest⟩

/-- Hex encoding produces two characters per byte. -/
theorem hexEncode_length (bs : Bytes) :
    (hexEncodeToString bs).length = 2 * bs.length := by
  induction bs with
  | nil => rfl
  | cons b t ih =>
    simp only [hexEncodeToString, List.length_cons, ih]
    omega

/-- The invariant holds initially. -/
theorem sfInv_init (keyOf : Nat → String) : SFInv keyOf sfInit := by
  refine ⟨fun i h => ?_, fun k i h => ?_, fun i j h => ?_, fun i j h => ?_⟩ <;>
    simp [sfInit] at h

/-- The invariant is preserved by every protocol step. -/
theorem sfInv_step (keyOf : Nat → String) (s s' : SFState)
    (hs : SFInv keyOf s) (hstep : SFStep keyOf s s') : SFInv keyOf s' := by
  obtain ⟨h1, h2, h3, h4⟩ := hs
  cases hstep with
  | register i hidle hown =>
    refine ⟨fun i' hl => ?_, fun k i' ho => ?_, fun i' j' hw => ?_, fun i' j' hf => ?_⟩
    · dsimp only at hl ⊢
      by_cases hii : i' = i
      · subst hii
        simp
      · rw [if_neg hii] at hl
        have ho := h1 i' hl
        by_cases hk : keyOf i' = keyOf i
        · rw [hk, hown] at ho
          exact absurd ho (by simp)
        · rw [if_neg hk]
          exact ho
    · dsimp only at ho ⊢
      by_cases hk : k = keyOf i
      · rw [if_pos hk] at ho
        have hii : i = i' := Option.some.inj ho
        subst hii
        exact ⟨by simp, hk.symm⟩
      · rw [if_neg hk] at ho
        have hli := h2 k i' ho
        have hii : i' ≠ i := by
          intro h
          rw [h, hidle] at hli
          exact absurd hli.1 (by simp)
        rw [if_neg hii]
        exact hli
    · dsimp only at hw ⊢
      have hii : i' ≠ i := by
        intro h
        rw [if_pos h] at hw
        exact absurd hw (by simp)
      rw [if_neg hii] at hw
      have hj := h3 i' j' hw
      have hji : j' ≠ i := by
        intro h
        rw [h, hidle] at hj
        rcases hj with h' | h' <;> exact absurd h' (by simp)
      rw [if_neg hji]
      exact hj
    · dsimp only at hf ⊢
      have hii : i' ≠ i := by
        intro h
        rw [if_pos h] at hf
        exact absurd hf (by simp)
      rw [if_neg hii] at hf
      have hj := h4 i' j' hf
      have hji : j' ≠ i := by
        intro h
        rw [h, hidle] at hj
        exact absurd hj (by simp)
      rw [if_neg hji]
      exact hj
  | join i j hidle hown =>
    refine ⟨fun i' hl => ?_, fun k i' ho => ?_, fun i' j' hw => ?_, fun i' j' hf => ?_⟩
    · dsimp only at hl ⊢
      have hii : i' ≠ i := by
        intro h
        rw [if_pos h] at hl
        exact absurd hl (by simp)
      rw [if_neg hii] at hl
      exact h1 i' hl
    · dsimp only at ho ⊢
      have hli := h2 k i' ho
      have hii : i' ≠ i := by
        intro h
        rw [h, hidle] at hli
        exact absurd hli.1 (by simp)
      rw [if_neg hii]
      exact hli
    · dsimp only at hw ⊢
      by_cases hii : i' = i
      · rw [if_pos hii] at hw
        have hjj : j' = j := by
          injection hw with h
          exact h.symm
        subst hjj
        have hlj := (h2 (keyOf i) j' hown).1
        have hji : j' ≠ i := by
          intro h
          rw [h, hidle] at hlj
          exact absurd hlj (by simp)
        rw [if_neg hji]
        exact Or.inl hlj
      · rw [if_neg hii] at hw
        have hj := h3 i' j' hw
        have hji : j' ≠ i := by
          intro h
          rw [h, hidle] at hj
          rcases hj with h' | h' <;> exact absurd h' (by simp)
        rw [if_neg hji]
        exact hj
    · dsimp only at hf ⊢
      have hii : i' ≠ i := by
        intro h
        rw [if_pos h] at hf
        exact absurd hf (by simp)
      rw [if_neg hii] at hf
      have hj := h4 i' j' hf
      have hji : j' ≠ i := by
        intro h
        rw [h, hidle] at hj
        exact absurd hj (by simp)
      rw [if_neg hji]
      exact hj
  | finish i hlead =>
    refine ⟨fun i' hl => ?_, fun k i' ho => ?_, fun i' j' hw => ?_, fun i' j' hf => ?_⟩
    · dsimp only at hl ⊢
      have hii : i' ≠ i := by
        intro h
        rw [if_pos h] at hl
        exact absurd hl (by simp)
      rw [if_neg hii] at hl
      have ho := h1 i' hl
      have hk : keyOf i' ≠ keyOf i := by
        intro h
        rw [h] at ho
        rw [h1 i hlead] at ho
        exact hii (Option.some.inj ho).symm
      rw [if_neg hk]
      exact ho
    · dsimp only at ho ⊢
      by_cases hk : k = keyOf i
      · rw [if_pos hk] at ho
        exact absurd ho (by simp)
      · rw [if_neg hk] at ho
        have hli := h2 k i' ho
        have hii : i' ≠ i := by
          intro h
          rw [h] at hli
          exact hk hli.2.symm
        rw [if_neg hii]
        exact hli
    · dsimp only at hw ⊢
      have hii : i' ≠ i := by
        intro h
        rw [if_pos h] at hw
        exact absurd hw (by simp)
      rw [if_neg hii] at hw
      have hj := h3 i' j' hw
      by_cases hji : j' = i
      · rw [if_pos hji]
        exact Or.inr rfl
      · rw [if_neg hji]
        exact hj
    · dsimp only at hf ⊢
      have hii : i' ≠ i := by
        intro h
        rw [if_pos h] at hf
        exact absurd hf (by simp)
      rw [if_neg hii] at hf
      have hj := h4 i' j' hf
      have hji : j' ≠ i := by
        intro h
        rw [h, hlead] at hj
        exact absurd hj (by simp)
      rw [if_neg hji]
      exact hj
  | wakeFallback i j hwait hdone =>
    refine ⟨fun i' hl => ?_, fun k i' ho => ?_, fun i' j' hw => ?_, fun i' j' hf => ?_⟩
    · dsimp only at hl ⊢
      have hii : i' ≠ i := by
        intro h
        rw [if_pos h] at hl
        exact absurd hl (by simp)
      rw [if_neg hii] at hl
      exact h1 i' hl
    · dsimp only at ho ⊢
      have hli := h2 k i' ho
      have hii : i' ≠ i := by
        intro h
        rw [h, hwait] at hli
        exact absurd hli.1 (by simp)
      rw [if_neg hii]
      exact hli
    · dsimp only at hw ⊢
      have hii : i' ≠ i := by
        intro h
        rw [if_pos h] at hw
        exact absurd hw (by simp)
      rw [if_neg hii] at hw
      have hj := h3 i' j' hw
      have hji : j' ≠ i := by
        intro h
        rw [h, hwait] at hj
        rcases hj with h' | h' <;> exact absurd h' (by simp)
      rw [if_neg hji]
      exact hj
    · dsimp only at hf ⊢
      by_cases hii : i' = i
      · rw [if_pos hii] at hf
        have hjj : j' = j := by
          injection hf with h
          exact h.symm
        subst hjj
        have hji : j' ≠ i := by
          intro h
          rw [h, hwait] at hdone
          exact absurd hdone (by simp)
        rw [if_neg hji]
        exact hdone
      · rw [if_neg hii] at hf
        have hj := h4 i' j' hf
        have hji : j' ≠ i := by
          intro h
          rw [h, hwait] at hj
          exact absurd hj (by simp)
        rw [if_neg hji]
        exact hj
  | wakeHit i j hwait hdone =>
    refine ⟨fun i' hl => ?_, fun k i' ho => ?_, fun i' j' hw => ?_, fun i' j' hf => ?_⟩
    · dsimp only at hl ⊢
      have hii : i' ≠ i := by
        intro h
        rw [if_pos h] at hl
        exact absurd hl (by simp)
      rw [if_neg hii] at hl
      exact h1 i' hl
    · dsimp only at ho ⊢
      have hli := h2 k i' ho
      have hii : i' ≠ i := by
        intro h
        rw [h, hwait] at hli
        exact absurd hli.1 (by simp)
      rw [if_neg hii]
      exact hli
    · dsimp only at hw ⊢
      have hii : i' ≠ i := by
        intro h
        rw [if_pos h] at hw
        exact absurd hw (by simp)
      rw [if_neg hii] at hw
      have hj := h3 i' j' hw
      by_cases hji : j' = i
      · rw [if_pos hji]
        exact Or.inr rfl
      · rw [if_neg hji]
        exact hj
    · dsimp only at hf ⊢
      have hii : i' ≠ i := by
        intro h
        rw [if_pos h] at hf
        exact absurd hf (by simp)
      rw [if_neg hii] at hf
      have hj := h4 i' j' hf
      by_cases hji : j' = i
      · rw [if_pos hji]
      · rw [if_neg hji]
        exact hj

/-- Every reachable single-flight state satisfies the invariant. -/
theorem sfReachable_inv (keyOf : Nat → String) (s : SFState)
    (h : SFReachable keyOf s) : SFInv keyOf s := by
  induction h with
  | refl => exact sfInv_init keyOf
  | tail _ hstep ih => exact sfInv_step keyOf _ _ ih hstep

/-! ## Claim theorems -/

/-- C3 (confirmed): for every read of a cached entry through the verified read
stream whose underlying file close succeeds, if the accumulated digest differs
from the recorded digest then `Close` deletes the backing file and returns
`errCorruptedCache`; if the digests match, `Close` reports success (nil, no
deletion). -/
theorem diskFileClose_verifies (computed recorded : Bytes) :
    (computed ≠ recorded →
      diskFileClose none computed recorded = (some .corruptedCache, true)) ∧
    (computed = recorded →
      diskFileClose none computed recorded = (none, false)) := by
  constructor
  · intro h
    have hb : hmacEqual computed recorded = false := by
      rcases Bool.eq_false_or_eq_true (hmacEqual computed recorded) with hb | hb
      · exact absurd ((hmacEqual_iff _ _).mp hb) h
      · exact hb
    simp [diskFileClose, hb]
  · intro h
    have hb : hmacEqual computed recorded = true := (hmacEqual_iff _ _).mpr h
    simp [diskFileClose, hb]

/-- C3 witness: a concrete mismatching pair is rejected with deletion, a
matching pair is accepted. -/
theorem diskFileClose_verifies_witness :
    diskFileClose none [0] [1] = (some .corruptedCache, true) ∧
    diskFileClose none [0] [0] = (none, false) :=
  ⟨(diskFileClose_verifies [0] [1]).1 (by decide),
   (diskFileClose_verifies [0] [0]).2 rfl⟩

/-- C7 counterexample: `Set` on a key already present does not replace the
stored value — after `Set("a", 1)` then `Set("a", 2)`, `Get("a")` still returns
`1`, not the claimed `2`. -/
theorem lruSet_value_counterexample :
    (lruGet (lruSet (lruSet ([] : List (String × Nat)) "a" 1) "a" 2) "a").1 ≠
      some 2 := by
  decide

/-- C7 (amended): after `Set(k, v)` on a state where `k` is absent, `Get(k)`
returns `v` and `k` sits at the most-recently-used end; `Set` on a key that is
already present moves it to the most-recently-used end but keeps the previously
stored value (it does not replace it with `v`); `RemoveUnused` removes and
returns the entry at the least-recently-used end. -/
theorem lru_index_ops (α : Type) (c : List (String × α)) (k : String) (v : α) :
    (lruLookup c k = none →
      lruSet c k v = (k, v) :: c ∧
      (lruGet (lruSet c k v) k).1 = some v ∧
      (lruSet c k v).head? = some (k, v)) ∧
    (∀ w, lruLookup c k = some w →
      lruSet c k v = (k, w) :: lruErase c k ∧
      (lruGet (lruSet c k v) k).1 = some w ∧
      (lruSet c k v).head? = some (k, w)) ∧
    lruRemoveUnused c = (c.getLast?, c.dropLast) := by
  refine ⟨?_, ?_, ?_⟩
  · intro h
    have hset : lruSet c k v = (k, v) :: c := by
      simp [lruSet, h]
    refine ⟨hset, ?_, by simp [hset]⟩
    rw [hset]
    simp [lruGet, lruLookup]
  · intro w h
    have hset : lruSet c k v = (k, w) :: lruErase c k := by
      simp [lruSet, h]
    refine ⟨hset, ?_, by simp [hset]⟩
    rw [hset]
    simp [lruGet, lruLookup]
  · rcases c with _ | ⟨x, t⟩ <;> rfl

/-- C7 witness: fresh insert, move-to-front with value retention, and pop of the
least-recently-used end, on concrete states. -/
theorem lru_index_ops_witness :
    (lruSet ([("b", 7)] : List (String × Nat)) "a" 1 = [("a", 1), ("b", 7)] ∧
      (lruGet (lruSet ([("b", 7)] : List (String × Nat)) "a" 1) "a").1 = some 1) ∧
    lruSet ([("b", 7), ("a", 1)] : List (String × Nat)) "a" 2 = [("a", 1), ("b", 7)] ∧
    lruRemoveUnused ([("a", 1), ("b", 7)] : List (String × Nat)) =
      (some ("b", 7), [("a", 1)]) := by
  refine ⟨⟨?_, ?_⟩, ?_, ?_⟩
  · exact ((lru_index_ops Nat [("b", 7)] "a" 1).1 (by decide)).1
  · exact ((lru_index_ops Nat [("b", 7)] "a" 1).1 (by decide)).2.1
  · have h := ((lru_index_ops Nat [("b", 7), ("a", 1)] "a" 2).2.1 1 (by decide)).1
    simpa [lruErase] using h
  · have h := (lru_index_ops Nat [("a", 1), ("b", 7)] "b" 0).2.2
    simpa using h

/-- C10 counterexample: with no caller-supplied secret, `init` installs no
secret at all (none, rather than a randomly generated one), and both the write
path and the read path use plain unkeyed SHA-256 — not an HMAC-style keyed
digest under any secret. -/
theorem secret_hash_counterexample :
    initSecret [] = none ∧
    teeHashAlgo (initSecret []) = HashAlgo.sha256 ∧
    openFileHashAlgo (initSecret []) = HashAlgo.sha256 := by
  decide

/-- C10 (amended): the integrity secret is a copy of the caller-supplied secret
when a non-empty one is configured and is absent otherwise; every digest over
stored content — on the write path and the read path alike — is HMAC-SHA256
under that secret when it is present and plain SHA-256 when it is not, the two
paths always agreeing. -/
theorem secret_hash_selection (optsSecret : Bytes) :
    (optsSecret ≠ [] →
      initSecret optsSecret = some optsSecret ∧
      teeHashAlgo (initSecret optsSecret) = .hmacSHA256 optsSecret ∧
      openFileHashAlgo (initSecret optsSecret) = .hmacSHA256 optsSecret) ∧
    (optsSecret = [] →
      initSecret optsSecret = none ∧
      teeHashAlgo (initSecret optsSecret) = .sha256 ∧
      openFileHashAlgo (initSecret optsSecret) = .sha256) ∧
    teeHashAlgo (initSecret optsSecret) = openFileHashAlgo (initSecret optsSecret) := by
  refine ⟨?_, ?_, rfl⟩
  · intro h
    have hl : 0 < optsSecret.length := List.length_pos.mpr h
    simp [initSecret, hl, teeHashAlgo, openFileHashAlgo, cacheHash]
  · intro h
    subst h
    simp [initSecret, teeHashAlgo, openFileHashAlgo, cacheHash]

/-- C10 witness: a configured secret is installed and keys both digests; the
empty configuration leaves both digests unkeyed. -/
theorem secret_hash_selection_witness :
    (initSecret [1, 2] = some [1, 2] ∧
      teeHashAlgo (initSecret [1, 2]) = .hmacSHA256 [1, 2]) ∧
    initSecret [] = none ∧
    openFileHashAlgo (initSecret []) = .sha256 :=
  ⟨⟨((secret_hash_selection [1, 2]).1 (by decide)).1,
    ((secret_hash_selection [1, 2]).1 (by decide)).2.1⟩,
   ((secret_hash_selection []).2.1 rfl).1,
   ((secret_hash_selection []).2.1 rfl).2.2⟩

/-- C8 (confirmed): `PurgeAndClose` always returns nil and leaves the cache
closed; a second call returns nil with no further effect; the lifecycle state
never goes backwards under `init`, `PurgeAndClose` or `GetOrLoad`; and
`GetOrLoad` on a closed cache hands back the loader's stream and error
unmodified, with no error from the closed state itself. -/
theorem lifecycle_and_closed_dispatch (c : LCCache) (f : Bool) (str : Int)
    (e : Option GoErr) :
    (purgeAndClose c).2 = none ∧
    ((purgeAndClose c).1).state = .closed ∧
    purgeAndClose (purgeAndClose c).1 = ((purgeAndClose c).1, none) ∧
    c.state.toNat ≤ ((purgeAndClose c).1).state.toNat ∧
    c.state.toNat ≤ ((lcInit c f).1).state.toNat ∧
    c.state.toNat ≤ ((getOrLoadDispatch c f str e).1).state.toNat ∧
    getOrLoadDispatch { c with state := .closed } f str e =
      ({ c with state := .closed }, .passthrough str e) := by
  obtain ⟨st, p, b, ix, ev⟩ := c
  cases st <;> cases f <;>
    simp [purgeAndClose, lcInit, getOrLoadDispatch, LState.toNat]

/-- C6 counterexample: for a 32-byte digest the filename component is not the
entire remainder of the hex encoding — `getFilename` uses `key[2:32]`, giving 30
of the remaining 62 hex characters. -/
theorem getFilename_truncation_counterexample :
    getFilename baseDemo sumDemo ≠
      baseDemo ++ ('/' :: (hexEncodeToString sumDemo).take 2) ++
        ('/' :: (hexEncodeToString sumDemo).drop 2) := by
  intro h
  have hlen := congrArg List.length h
  have h64 : (hexEncodeToString sumDemo).length = 64 := by
    rw [hexEncode_length]
    simp [sumDemo]
  simp [getFilename, goSlice, baseDemo, List.length_take, List.length_drop, h64] at hlen

/-- C6 (amended): for every 32-byte digest, the content store path is the base
directory joined with a subdirectory named by the first 2 hex characters and a
file named by hex characters 2 through 31 — the first 30 characters of the
remainder (a proper prefix of it), not the entire 62-character remainder. -/
theorem getFilename_layout (basePath : List Char) (sum : Bytes)
    (h : sum.length = 32) :
    getFilename basePath sum =
      basePath ++ ('/' :: (hexEncodeToString sum).take 2) ++
        ('/' :: ((hexEncodeToString sum).drop 2).take 30) ∧
    ((hexEncodeToString sum).drop 2).take 30 <+: (hexEncodeToString sum).drop 2 ∧
    (hexEncodeToString sum).length = 64 ∧
    (((hexEncodeToString sum).drop 2).take 30).length = 30 ∧
    ((hexEncodeToString sum).drop 2).length = 62 := by
  have h64 : (hexEncodeToString sum).length = 64 := by
    rw [hexEncode_length, h]
  refine ⟨?_, List.take_prefix _ _, h64, ?_, ?_⟩
  · show basePath ++ ('/' :: goSlice (hexEncodeToString sum) 0 2) ++
        ('/' :: goSlice (hexEncodeToString sum) 2 32) = _
    unfold goSlice
    rw [List.drop_zero, List.drop_take]
  · simp [List.length_take, List.length_drop, h64]
  · simp [List.length_drop, h64]

/-- C6 witness: the layout at a concrete 32-byte digest. -/
theorem getFilename_layout_witness :
    sumDemo.length = 32 ∧
    (hexEncodeToString sumDemo).length = 64 ∧
    (((hexEncodeToString sumDemo).drop 2).take 30).length = 30 :=
  ⟨by simp [sumDemo],
   (getFilename_layout baseDemo sumDemo (by simp [sumDemo])).2.2.1,
   (getFilename_layout baseDemo sumDemo (by simp [sumDemo])).2.2.2.1⟩

/-- C2 (code bug): the admission check of `getOrLoad` is `size/10 > c.sizeMax`,
which only skips caching when the declared size exceeds ten times the budget —
with budget 100, a load declaring 1000 bytes (ten times the budget, far above
one-tenth of it) still gets a caching tee, and the skip begins only at 1010;
a load of 10 bytes (one-tenth of the budget) is cached as the claim's second
half states. -/
theorem admission_threshold_check :
    getOrLoadFresh 100 1000 none none = .teeStream ∧
    (1000 : Int) > (100 : Int).tdiv 10 ∧
    getOrLoadFresh 100 1009 none none = .teeStream ∧
    getOrLoadFresh 100 1010 none none = .plain ∧
    getOrLoadFresh 100 10 none none = .teeStream := by
  decide

/-- C5 (code bug): the rate-limit clause compares `time.Until(evictLast)` — the
negated elapsed time — against the minimum period, so a wake-up 60 seconds after
the last pass (well beyond the default 30-second period) with the size ratio
120/100 below the emergency default 1.5 runs no eviction pass, although the
claimed elapsed-time condition holds. -/
theorem evictDecision_rate_limit_check :
    evictRunDecision 0 0 100 (60 * 1000000000) 0 120 = false ∧
    (60 * 1000000000 : Int) - 0 ≥ effectivePeriod 0 ∧
    ¬ ((120 : ℚ) / (100 : ℚ) ≥ effectiveEmergency 0) := by
  refine ⟨?_, by norm_num [effectivePeriod], by norm_num [effectiveEmergency]⟩
  simp only [evictRunDecision, Bool.or_eq_false_iff, decide_eq_false_iff_not]
  constructor
  · norm_num [effectivePeriod]
  · norm_num [effectiveEmergency]

/-- C1 counterexample: the repository's own size-mismatch scenario (4 bytes
streamed against a declared size of 16, source stream closing cleanly): the
finalize error is `errSizeNotMatch`, the temporary file is removed and no index
entry inserted — yet `Close` returns nil (the source stream's close error), not
the size error the claim promises to the caller. -/
theorem teeClose_result_counterexample :
    teeFinalizeErr teeSizeMismatchDemo = some .sizeNotMatch ∧
    (diskTeeClose teeSizeMismatchDemo cacheDemo).result = none ∧
    (diskTeeClose teeSizeMismatchDemo cacheDemo).tmpRemoved = true ∧
    (diskTeeClose teeSizeMismatchDemo cacheDemo).cache.index = [] := by
  decide

/-- C1 (amended): for every write-path load whose finalize fails (write error or
short write recorded during streaming, or observed byte count differing from the
declared size, yielding the size-mismatch error), closing the tee removes the
temporary file, inserts no index entry and leaves the size counter and content
store untouched; the integrity/size error becomes the load's recorded outcome
(released to any waiters), while the value `Close` returns to the original
caller is the source stream's own close error, not the finalize error. -/
theorem teeClose_failure_cleanup (t : TeeSt) (c : CacheSt)
    (h : (teeFinalizeErr t).isSome) :
    (diskTeeClose t c).cache.index = c.index ∧
    (diskTeeClose t c).cache.size = c.size ∧
    (diskTeeClose t c).cache.store = c.store ∧
    (diskTeeClose t c).tmpRemoved = true ∧
    (diskTeeClose t c).outcome = teeFinalizeErr t ∧
    (diskTeeClose t c).result = t.srcCloseErr := by
  rcases ho : teeFinalizeErr t with _ | e
  · rw [ho] at h
    simp at h
  · simp [diskTeeClose, addFileLocked, ho]

/-- C1 witness: a short write recorded during streaming, evaluated concretely. -/
theorem teeClose_failure_cleanup_witness :
    (teeFinalizeErr teeShortWriteDemo).isSome = true ∧
    (diskTeeClose teeShortWriteDemo cacheDemo).cache.index = cacheDemo.index ∧
    (diskTeeClose teeShortWriteDemo cacheDemo).tmpRemoved = true ∧
    (diskTeeClose teeShortWriteDemo cacheDemo).outcome = some .shortWrite ∧
    (diskTeeClose teeShortWriteDemo cacheDemo).result = none := by
  have h := teeClose_failure_cleanup teeShortWriteDemo cacheDemo (by decide)
  exact ⟨by decide, h.1, h.2.2.2.1, by decide, h.2.2.2.2.2⟩

/-- C9 counterexample: publishing a finished temporary file whose digest is
already present (second key, identical content): the rename is indeed skipped
and the entry inserted, but the outcome of the publish and of the close-time
finalize is the already-exists error, not the success the claim states. -/
theorem publish_existing_not_success_counterexample :
    (diskTeeClose teeDupDemo cacheDupDemo).cache.store = cacheDupDemo.store ∧
    (diskTeeClose teeDupDemo cacheDupDemo).outcome = some .exist ∧
    (diskTeeClose teeDupDemo cacheDupDemo).outcome ≠ none := by
  decide

/-- C9 (amended): for every publish of a finished temporary file (finalize clean)
whose digest's canonical path already exists, the rename is skipped (the content
store is unchanged) and the index entry is still inserted, but the outcome of the
publish — and of the close-time finalize — is the already-exists error: the size
counter is not increased, the now-orphaned temporary file is removed, that error
is delivered to any waiters, and the caller's `Close` still returns the source
stream's close error. -/
theorem publish_existing_digest (t : TeeSt) (c : CacheSt)
    (h1 : teeFinalizeErr t = none) (h2 : t.digest ∈ c.store) :
    (diskTeeClose t c).cache.store = c.store ∧
    (diskTeeClose t c).cache.index = lruSet c.index t.key ⟨t.digest, t.declSize⟩ ∧
    (diskTeeClose t c).cache.size = c.size ∧
    (diskTeeClose t c).outcome = some .exist ∧
    (diskTeeClose t c).tmpRemoved = true ∧
    (diskTeeClose t c).result = t.srcCloseErr := by
  simp [diskTeeClose, addFileLocked, diskCacheRename, h1, h2]

/-- C9 witness: the duplicate-content publish evaluated concretely. -/
theorem publish_existing_digest_witness :
    teeFinalizeErr teeDupDemo = none ∧
    teeDupDemo.digest ∈ cacheDupDemo.store ∧
    (diskTeeClose teeDupDemo cacheDupDemo).cache.index =
      lruSet cacheDupDemo.index "key2" ⟨[17], 4⟩ ∧
    (diskTeeClose teeDupDemo cacheDupDemo).cache.size = cacheDupDemo.size ∧
    (diskTeeClose teeDupDemo cacheDupDemo).result = none := by
  have h := publish_existing_digest teeDupDemo cacheDupDemo (by decide) (by decide)
  exact ⟨by decide, by decide, h.2.1, h.2.2.1, h.2.2.2.2.2⟩

/-- C4 (confirmed): in every reachable state of the single-flight protocol, at
most one caller per key is in the leading (loader-invoking) phase — two leaders
on the same key coincide; every other caller for that key is a waiter whose
leader is still leading or already finished; and a caller re-invokes the loader
directly (fallback) only once its leader's outcome is recorded. -/
theorem singleflight_at_most_one_loader (keyOf : Nat → String) (s : SFState)
    (h : SFReachable keyOf s) :
    (∀ i j, s.phase i = .leading → s.phase j = .leading → keyOf i = keyOf j → i = j) ∧
    (∀ i j, s.phase i = .waiting j → s.phase j = .leading ∨ s.phase j = .done) ∧
    (∀ i j, s.phase i = .fallback j → s.phase j = .done) := by
  obtain ⟨h1, h2, h3, h4⟩ := sfReachable_inv keyOf s h
  refine ⟨fun i j hi hj hk => ?_, h3, h4⟩
  have oi := h1 i hi
  have oj := h1 j hj
  rw [hk] at oi
  exact Option.some.inj (oi.symm.trans oj)

/-- C4 witness: the state in which caller 0 leads the load for `"k"` and caller
1 waits on it is reachable, and the protocol guarantees hold there. -/
theorem singleflight_at_most_one_loader_witness :
    sfDemo2.phase 0 = SFPhase.leading ∧
    sfDemo2.phase 1 = SFPhase.waiting 0 ∧
    ((∀ i j, sfDemo2.phase i = .leading → sfDemo2.phase j = .leading →
        sfKeyDemo i = sfKeyDemo j → i = j) ∧
     (∀ i j, sfDemo2.phase i = .waiting j →
        sfDemo2.phase j = .leading ∨ sfDemo2.phase j = .done) ∧
     (∀ i j, sfDemo2.phase i = .fallback j → sfDemo2.phase j = .done)) := by
  refine ⟨by decide, by decide, singleflight_at_most_one_loader sfKeyDemo sfDemo2 ?_⟩
  have s1 : SFStep sfKeyDemo sfInit sfDemo1 :=
    SFStep.register sfInit 0 (by decide) (by decide)
  have s2 : SFStep sfKeyDemo sfDemo1 sfDemo2 :=
    SFStep.join sfDemo1 1 0 (by decide) (by decide)
  exact Relation.ReflTransGen.tail (Relation.ReflTransGen.single s1) s2
